import Mathlib

/-!
Verification of the mongo-to-sqlite migration core.

Shallow embedding of the Rust sources:
  src/converter.rs  (value mapper: classification, conversion, identifier escaping)
  src/schema.rs     (schema inference and DDL/DML string generation)
  src/migration.rs  (batched, transactional data migration)

Modelling conventions:
  - BSON values are a closed inductive type mirroring the bson crate variants
    used by the program; payloads irrelevant to the program are carried as
    plain data (a double is carried as its 64 bit pattern, an object id as
    its hex rendering, a decimal128 as its decimal string).
  - External serialization (serde_json, chrono rfc3339) is abstracted as a
    context of functions, since the program only pipes their output through.
  - Rust HashMap is modelled as a total function from keys to values plus an
    explicit key list recording one iteration order; theorems that depend on
    iteration order quantify over admissible key lists.
  - The libsql sink is modelled as a state holding committed rows, an open
    transaction buffer, and an event log; per-row insert success is an
    arbitrary predicate on rows, standing for constraint or transport
    failures of the sink.
-/

namespace MongoToSqlite

/-- The closed union of BSON value tags handled by the program
(mirrors the match arms of src/converter.rs). -/
inductive Bson where
  | double (bits : Nat)
  | string (s : String)
  | document (fields : List (String × Bson))
  | array (elems : List Bson)
  | binary (bytes : List Nat)
  | objectId (hex : String)
  | boolean (b : Bool)
  | dateTime (millis : Int)
  | null
  | regularExpression (pattern opts : String)
  | javaScriptCode (code : String)
  | javaScriptCodeWithScope (code : String) (scope : List (String × Bson))
  | int32 (v : Int)
  | int64 (v : Int)
  | timestamp (time increment : Nat)
  | decimal128 (dec : String)
  | undefined
  | maxKey
  | minKey
  | dbPointer (ns oid : String)
  | symbol (s : String)

/-- libsql::Value as used by the program. A real is carried as a 64 bit
pattern, a blob as raw bytes. -/
inductive SqlValue where
  | null
  | integer (i : Int)
  | real (bits : Nat)
  | text (t : String)
  | blob (bytes : List Nat)
deriving DecidableEq

/-- A MongoDB document: an ordered association list of field name and value
(bson::Document keeps insertion order and distinct keys). -/
abbrev Doc : Type := List (String × Bson)

/-- Abstraction of the external serialization libraries used by
bson_to_sql_value: serde_json::to_string on documents, arrays and binary
values (fallible), the json! object renderings for regex and code with
scope (infallible), and chrono to_rfc3339. -/
structure SerCtx where
  jsonDocument : List (String × Bson) → Option String
  jsonArray : List Bson → Option String
  jsonBinary : List Nat → Option String
  regexJson : String → String → String
  codeWithScopeJson : String → List (String × Bson) → String
  rfc3339 : Int → String

/-- Embedding of converter.rs bson_to_sql_value: convert one BSON value to a
SQL value; serialization failures degrade to NULL. -/
def bson_to_sql_value (ctx : SerCtx) (b : Bson) : SqlValue :=
  match b with
  | .double bits => .real bits
  | .string v => .text v
  | .document doc =>
    match ctx.jsonDocument doc with
    | some json => .text json
    | none => .null
  | .array arr =>
    match ctx.jsonArray arr with
    | some json => .text json
    | none => .null
  | .binary bytes =>
    match ctx.jsonBinary bytes with
    | some json => .text json
    | none => .null
  | .objectId hex => .text hex
  | .boolean v => .integer (if v then 1 else 0)
  | .dateTime millis => .text (ctx.rfc3339 millis)
  | .null => .null
  | .regularExpression pattern opts => .text (ctx.regexJson pattern opts)
  | .javaScriptCode code => .text code
  | .javaScriptCodeWithScope code scope => .text (ctx.codeWithScopeJson code scope)
  | .int32 v => .integer v
  | .int64 v => .integer v
  | .timestamp time _ => .integer (Int.ofNat time)
  | .decimal128 dec => .text dec
  | .undefined => .null
  | .maxKey => .text "$maxKey"
  | .minKey => .text "$minKey"
  | .dbPointer _ _ => .null
  | .symbol s => .text s

/-- Embedding of converter.rs infer_sqlite_type: the storage class of a BSON
value, by tag only. -/
def infer_sqlite_type (b : Bson) : String :=
  match b with
  | .double _ => "REAL"
  | .string _ => "TEXT"
  | .document _ => "TEXT"
  | .array _ => "TEXT"
  | .binary _ => "BLOB"
  | .objectId _ => "TEXT"
  | .boolean _ => "INTEGER"
  | .dateTime _ => "TEXT"
  | .null => "NULL"
  | .undefined => "NULL"
  | .regularExpression _ _ => "TEXT"
  | .javaScriptCode _ => "TEXT"
  | .javaScriptCodeWithScope _ _ => "TEXT"
  | .int32 _ => "INTEGER"
  | .int64 _ => "INTEGER"
  | .timestamp _ _ => "INTEGER"
  | .decimal128 _ => "TEXT"
  | .maxKey => "TEXT"
  | .minKey => "TEXT"
  | .dbPointer _ _ => "NULL"
  | .symbol _ => "TEXT"

/-- Embedding of converter.rs document_to_sql_values: one positional value
per requested field name, NULL when the field is absent. -/
def document_to_sql_values (ctx : SerCtx) (doc : Doc) (field_names : List String) :
    List SqlValue :=
  field_names.map (fun field_name =>
    ((List.lookup field_name doc).map (bson_to_sql_value ctx)).getD .null)

/-- Embedding of converter.rs escape_identifier: wrap in double quotes and
double every embedded double quote (Rust replace with a one-character
pattern is character-wise substitution). -/
def escape_identifier (s : String) : String :=
  "\"" ++ String.mk ((s.data.map (fun c => if c = '"' then ['"', '"'] else [c])).flatten) ++ "\""

/-- A column of the inferred schema (schema.rs Field). -/
structure Field where
  name : String
  sql_type : String
  nullable : Bool
  is_primary_key : Bool
deriving DecidableEq

/-- The inferred schema of one collection (schema.rs CollectionSchema). -/
structure CollectionSchema where
  collection_name : String
  fields : List Field
deriving DecidableEq

/-- Embedding of CollectionSchema::to_create_table_sql. -/
def CollectionSchema.to_create_table_sql (s : CollectionSchema) : String :=
  let table_name := escape_identifier s.collection_name
  let field_defs := s.fields.map (fun f =>
    let d := escape_identifier f.name ++ " " ++ f.sql_type
    let d := if f.is_primary_key then d ++ " PRIMARY KEY" else d
    let d := if !f.nullable && !f.is_primary_key then d ++ " NOT NULL" else d
    d)
  "CREATE TABLE IF NOT EXISTS " ++ table_name ++ " (\n  " ++
    String.intercalate ",\n  " field_defs ++ "\n)"

/-- Embedding of CollectionSchema::field_names. -/
def CollectionSchema.field_names (s : CollectionSchema) : List String :=
  s.fields.map (fun f => f.name)

/-- Embedding of CollectionSchema::to_insert_sql. -/
def CollectionSchema.to_insert_sql (s : CollectionSchema) : String :=
  let table_name := escape_identifier s.collection_name
  let field_names := s.fields.map (fun f => escape_identifier f.name)
  let placeholders := String.intercalate ", " (s.fields.map (fun _ => "?"))
  "INSERT INTO " ++ table_name ++ " (" ++ String.intercalate ", " field_names ++
    ") VALUES (" ++ placeholders ++ ")"

/-- Per-field information collected during schema inference (schema.rs
FieldInfo). The Rust HashMap from type name to count is modelled as the
total function type_counts (absent keys count 0) together with type_keys,
the list of present keys in one iteration order (insertion order is the
order realized by this embedding; order-sensitive theorems quantify over
admissible key lists). The most_common_type field written by finalize is
represented by the function FieldInfo.finalize read at the use sites. -/
structure FieldInfo where
  type_counts : String → Nat
  type_keys : List String
  presence_count : Nat

/-- FieldInfo::new. -/
def FieldInfo.new : FieldInfo :=
  { type_counts := fun _ => 0, type_keys := [], presence_count := 0 }

/-- FieldInfo::record_value: bump the counter of the observed storage
class. -/
def FieldInfo.record_value (fi : FieldInfo) (v : Bson) : FieldInfo :=
  let sql_type := infer_sqlite_type v
  { type_counts := fun t => if t = sql_type then fi.type_counts t + 1 else fi.type_counts t
    type_keys := if sql_type ∈ fi.type_keys then fi.type_keys else fi.type_keys ++ [sql_type]
    presence_count := fi.presence_count + 1 }

/-- The fixed priority order of storage classes used by finalize. -/
def type_priority : List String := ["INTEGER", "REAL", "TEXT", "BLOB", "NULL"]

/-- FieldInfo::finalize: the chosen storage class. The scan over the
priority list keeps the first strict improvement of the running maximum
(count > max_count in the source); the fallback for max_count = 0 mirrors
Iterator::max_by_key (last maximal entry); the final branch overrides a
NULL winner by the first non-NULL key with positive count. -/
def FieldInfo.finalize (fi : FieldInfo) : String :=
  if fi.type_keys = [] then "TEXT"
  else
    let scan := type_priority.foldl
      (fun acc t =>
        if t ∈ fi.type_keys ∧ acc.1 < fi.type_counts t then (fi.type_counts t, t) else acc)
      ((0, "TEXT") : Nat × String)
    let most_common :=
      if scan.1 = 0 then
        match fi.type_keys with
        | [] => scan.2
        | k :: ks =>
          ks.foldl (fun best t => if fi.type_counts best ≤ fi.type_counts t then t else best) k
      else scan.2
    if most_common = "NULL" ∧ 1 < fi.type_keys.length then
      match fi.type_keys.find? (fun t => t != "NULL" && decide (0 < fi.type_counts t)) with
      | some t => t
      | none => most_common
    else most_common

/-- The HashMap from field name to FieldInfo built by analyze_documents,
modelled like the inner map: a total function plus the key list in
insertion order. -/
structure FieldMap where
  infos : String → FieldInfo
  fkeys : List String

/-- The empty field map. -/
def FieldMap.empty : FieldMap :=
  { infos := fun _ => FieldInfo.new, fkeys := [] }

/-- One entry update: field_info.entry(key).or_insert_with(new) followed by
record_value. -/
def FieldMap.record (fm : FieldMap) (key : String) (v : Bson) : FieldMap :=
  { infos := fun s => if s = key then (fm.infos key).record_value v else fm.infos s
    fkeys := if key ∈ fm.fkeys then fm.fkeys else fm.fkeys ++ [key] }

/-- SchemaInferrer::analyze_documents: record every (field, value) pair of
every document. -/
def analyze_documents (documents : List Doc) : FieldMap :=
  documents.foldl
    (fun fm doc => doc.foldl (fun fm kv => fm.record kv.1 kv.2) fm)
    FieldMap.empty

namespace SchemaInferrer

/-- SchemaInferrer::create_empty_schema: minimal schema with only _id. -/
def create_empty_schema (collection_name : String) : CollectionSchema :=
  { collection_name := collection_name
    fields := [{ name := "_id", sql_type := "TEXT", nullable := false, is_primary_key := true }] }

/-- SchemaInferrer::infer_schema. The _id entry, when observed, is removed
from the map and emitted first as the non-nullable primary key with its
inferred type; the remaining field names are sorted ascending and emitted
as nullable non-key columns. Vec::sort is modelled by insertionSort (both
produce the unique sorted arrangement of the distinct key names). -/
def infer_schema (collection_name : String) (documents : List Doc) : CollectionSchema :=
  if documents.isEmpty then create_empty_schema collection_name
  else
    let fm := analyze_documents documents
    let id_fields : List Field :=
      if "_id" ∈ fm.fkeys then
        [{ name := "_id", sql_type := (fm.infos "_id").finalize,
           nullable := false, is_primary_key := true }]
      else []
    let field_names := (fm.fkeys.filter (fun k => k != "_id")).insertionSort (· ≤ ·)
    let rest := field_names.map (fun k =>
      ({ name := k, sql_type := (fm.infos k).finalize,
         nullable := true, is_primary_key := false } : Field))
    { collection_name := collection_name, fields := id_fields ++ rest }

end SchemaInferrer

/-- A row of positional insert parameters. -/
abbrev Row : Type := List SqlValue

/-- Events observed at the sink connection: BEGIN TRANSACTION, one execution
of the insert template with the positional values of a row, COMMIT (with the
number of rows made visible), ROLLBACK. -/
inductive TxEvent where
  | begin
  | exec (sql : String) (row : Row)
  | commit (n : Nat)
  | rollback
deriving DecidableEq

/-- The libsql sink modelled as committed rows, the buffer of the open
transaction (none when no transaction is open), and the event log. -/
structure SqlState where
  committed : List Row
  txn : Option (List Row)
  log : List TxEvent
deriving DecidableEq

/-- execute("BEGIN TRANSACTION"). -/
def exec_begin (s : SqlState) : SqlState :=
  { s with txn := some [], log := s.log ++ [TxEvent.begin] }

/-- execute("COMMIT"): the buffered rows become visible. The branch without
an open transaction is unreachable in the bracket built by insert_batch. -/
def exec_commit (s : SqlState) : SqlState :=
  match s.txn with
  | some buf =>
    { committed := s.committed ++ buf, txn := none,
      log := s.log ++ [TxEvent.commit buf.length] }
  | none => s

/-- execute("ROLLBACK"): the buffered rows are discarded. -/
def exec_rollback (s : SqlState) : SqlState :=
  { committed := s.committed, txn := none, log := s.log ++ [TxEvent.rollback] }

/-- execute_with_params(insert_sql, row): the sink accepts or rejects one
row, as given by the predicate ok (constraint violation or transport
failure when false). On success the row joins the open transaction buffer
(or is committed directly when no transaction is open). -/
def exec_insert (ok : Row → Bool) (insert_sql : String) (r : Row) (s : SqlState) :
    Option SqlState :=
  if ok r then
    some (match s.txn with
      | some buf =>
        { s with txn := some (buf ++ [r]), log := s.log ++ [TxEvent.exec insert_sql r] }
      | none =>
        { s with committed := s.committed ++ [r], log := s.log ++ [TxEvent.exec insert_sql r] })
  else none

namespace Migrator

/-- Migrator::insert_batch_inner: execute the insert template once per row,
stopping at the first failure; the error carries the connection state at
the failure. -/
def insert_batch_inner (ok : Row → Bool) (insert_sql : String) :
    List Row → SqlState → Except SqlState SqlState
  | [], s => Except.ok s
  | r :: rest, s =>
    match exec_insert ok insert_sql r s with
    | some s1 => insert_batch_inner ok insert_sql rest s1
    | none => Except.error s

/-- Migrator::insert_batch: empty batches are a no-op; otherwise BEGIN,
insert every row, COMMIT on success, ROLLBACK and propagate on failure. -/
def insert_batch (ok : Row → Bool) (insert_sql : String) (batch : List Row)
    (s : SqlState) : Except SqlState SqlState :=
  if batch.isEmpty then Except.ok s
  else
    match insert_batch_inner ok insert_sql batch (exec_begin s) with
    | Except.ok s1 => Except.ok (exec_commit s1)
    | Except.error s1 => Except.error (exec_rollback s1)

/-- The streaming loop of Migrator::migrate_collection_data: convert each
document, accumulate, flush whenever the accumulated batch reaches
batch_size. Returns the final state, the unflushed trailing batch and the
migrated count. -/
def migrate_loop (ok : Row → Bool) (batch_size : Nat) (insert_sql : String)
    (field_names : List String) (ctx : SerCtx) :
    List Doc → List Row → Nat → SqlState → Except SqlState (SqlState × List Row × Nat)
  | [], batch, total_migrated, s => Except.ok (s, batch, total_migrated)
  | doc :: docs, batch, total_migrated, s =>
    let values := document_to_sql_values ctx doc field_names
    let batch1 := batch ++ [values]
    if batch_size ≤ batch1.length then
      match insert_batch ok insert_sql batch1 s with
      | Except.ok s1 => migrate_loop ok batch_size insert_sql field_names ctx docs [] (total_migrated + batch1.length) s1
      | Except.error s1 => Except.error s1
    else
      migrate_loop ok batch_size insert_sql field_names ctx docs batch1 total_migrated s

/-- Result of migrating one collection: the final sink state, the migrated
count returned to the caller, and whether the count-mismatch warning was
emitted. -/
structure MigrateResult where
  state : SqlState
  migrated : Nat
  count_mismatch_warned : Bool
deriving DecidableEq

/-- Migrator::migrate_collection_data. total_count is the previously fetched
count, stream the documents delivered by the cursor (the two can differ when
the source mutates concurrently). A zero count returns immediately; otherwise
the schema is re-inferred from the sample, the stream is converted and
batched, the trailing partial batch is flushed, and a mismatch between the
migrated and expected counts is only warned about. -/
def migrate_collection_data (ok : Row → Bool) (batch_size : Nat) (ctx : SerCtx)
    (collection_name : String) (sample : List Doc) (total_count : Nat)
    (stream : List Doc) (s : SqlState) : Except SqlState MigrateResult :=
  if total_count = 0 then Except.ok { state := s, migrated := 0, count_mismatch_warned := false }
  else
    let schema := SchemaInferrer.infer_schema collection_name sample
    let insert_sql := schema.to_insert_sql
    let field_names := schema.field_names
    match migrate_loop ok batch_size insert_sql field_names ctx stream [] 0 s with
    | Except.error s1 => Except.error s1
    | Except.ok (s1, batch, total_migrated) =>
      if batch.isEmpty then
        Except.ok { state := s1, migrated := total_migrated,
                    count_mismatch_warned := decide (total_migrated ≠ total_count) }
      else
        match insert_batch ok insert_sql batch s1 with
        | Except.ok s2 =>
          Except.ok { state := s2, migrated := total_migrated + batch.length,
                      count_mismatch_warned := decide (total_migrated + batch.length ≠ total_count) }
        | Except.error s2 => Except.error s2

end Migrator

/-! Spec-side definitions, written from the wording of spec.md, to be
compared with the definitions embedded from the source. -/

/-- Spec-side classification table, following the sentence of spec.md section
4.1 word by word. -/
def spec_storage_class (b : Bson) : String :=
  match b with
  | .double _ => "REAL"
  | .string _ | .objectId _ | .dateTime _ | .regularExpression _ _ | .javaScriptCode _
  | .javaScriptCodeWithScope _ _ | .decimal128 _ | .symbol _ | .minKey | .maxKey => "TEXT"
  | .document _ | .array _ => "TEXT"
  | .binary _ => "BLOB"
  | .boolean _ | .int32 _ | .int64 _ | .timestamp _ _ => "INTEGER"
  | .null | .undefined | .dbPointer _ _ => "NULL"

/-- Spec-side identifier escaping: double any embedded double quote. -/
def spec_double_quotes : List Char → List Char
  | [] => []
  | c :: cs =>
    if c = '"' then '"' :: '"' :: spec_double_quotes cs else c :: spec_double_quotes cs

/-- Spec-side identifier quoting: wrap in double quotes, doubling any
embedded double quote. -/
def spec_quote (s : String) : String :=
  String.mk ('"' :: (spec_double_quotes s.data ++ ['"']))

/-- Spec-side column definition of a CREATE TABLE statement: quoted name and
type, PRIMARY KEY suffix for the primary key column, NOT NULL suffix for a
non-nullable non-key column. -/
def spec_column_def (f : Field) : String :=
  spec_quote f.name ++ " " ++ f.sql_type ++
    (if f.is_primary_key then " PRIMARY KEY" else "") ++
    (if !f.nullable && !f.is_primary_key then " NOT NULL" else "")

/-- Spec-side CREATE TABLE statement, with every emitted name quoted. -/
def spec_create_table_sql (s : CollectionSchema) : String :=
  "CREATE TABLE IF NOT EXISTS " ++ spec_quote s.collection_name ++ " (\n  " ++
    String.intercalate ",\n  " (s.fields.map spec_column_def) ++ "\n)"

/-- Spec-side parameterized insert template, with every emitted name quoted
and one placeholder per column. -/
def spec_insert_sql (s : CollectionSchema) : String :=
  "INSERT INTO " ++ spec_quote s.collection_name ++ " (" ++
    String.intercalate ", " (s.fields.map (fun f => spec_quote f.name)) ++
    ") VALUES (" ++ String.intercalate ", " (s.fields.map (fun _ => "?")) ++ ")"

/-- Spec-side maximum observation count over the storage classes. -/
def spec_max_count (counts : String → Nat) : Nat :=
  (type_priority.map counts).foldr max 0

/-- Spec-side plurality vote with priority tie break, following the wording
of spec.md section 4.2 step 3: the first class in the priority order that
has a nonzero count equal to the maximum wins. -/
def spec_vote (counts : String → Nat) : String :=
  (type_priority.find?
    (fun t => decide (0 < counts t) && (counts t == spec_max_count counts))).getD "NULL"

/-! Claim C6: totality and content of the classification table. -/

/-- C6: classification is total (infer_sqlite_type is a total Lean function
over the closed BSON union) and matches the fixed tag table of the spec:
its value on every tag is the spec table entry, and is always one of
INTEGER, REAL, TEXT, BLOB, NULL. -/
theorem infer_sqlite_type_total_table (b : Bson) :
    infer_sqlite_type b = spec_storage_class b ∧
    infer_sqlite_type b ∈ ["INTEGER", "REAL", "TEXT", "BLOB", "NULL"] := by
  cases b <;> simp [infer_sqlite_type, spec_storage_class]

/-! Claim C10: concrete conversion of the sentinel tags. -/

/-- C10: conversion sends the min sentinel to the literal text $minKey and
the max sentinel to the literal text $maxKey, for every serialization
context. -/
theorem bson_to_sql_value_sentinels (ctx : SerCtx) :
    bson_to_sql_value ctx Bson.minKey = SqlValue.text "$minKey" ∧
    bson_to_sql_value ctx Bson.maxKey = SqlValue.text "$maxKey" :=
  ⟨rfl, rfl⟩

/-! Claim C4: shape of the row produced for a document. -/

/-- C4: for every document and every ordered list of field names, the
produced row has exactly one positional value per field name, and holds
NULL at every position whose field name is absent from the document. -/
theorem document_to_sql_values_shape (ctx : SerCtx) (doc : Doc)
    (field_names : List String) :
    (document_to_sql_values ctx doc field_names).length = field_names.length ∧
    ∀ (i : Nat) (fn : String), field_names[i]? = some fn → List.lookup fn doc = none →
      (document_to_sql_values ctx doc field_names)[i]? = some SqlValue.null := by
  constructor
  · simp [document_to_sql_values]
  · intro i fn hi habs
    simp [document_to_sql_values, List.getElem?_map, hi, habs]

/-- Witness for C4 at a concrete input: a two-column row for a document
missing its first field. -/
theorem document_to_sql_values_shape_witness :
    (document_to_sql_values
        ⟨fun _ => none, fun _ => none, fun _ => none, fun _ _ => "", fun _ _ => "", fun _ => ""⟩
        [("b", Bson.int32 1)] ["a", "b"]).length = 2 ∧
    (document_to_sql_values
        ⟨fun _ => none, fun _ => none, fun _ => none, fun _ _ => "", fun _ _ => "", fun _ => ""⟩
        [("b", Bson.int32 1)] ["a", "b"])[0]? = some SqlValue.null :=
  ⟨(document_to_sql_values_shape _ _ _).1,
   (document_to_sql_values_shape
      ⟨fun _ => none, fun _ => none, fun _ => none, fun _ _ => "", fun _ _ => "", fun _ => ""⟩
      [("b", Bson.int32 1)] ["a", "b"]).2 0 "a" rfl rfl⟩

/-! Claim C8: identifier escaping and its application to every emitted
name. -/

/-- Helper: the character-wise substitution of escape_identifier equals the
spec-side quote doubling. -/
theorem escape_data_eq_spec (l : List Char) :
    (l.map (fun c => if c = '"' then ['"', '"'] else [c])).flatten = spec_double_quotes l := by
  induction l with
  | nil => rfl
  | cons c cs ih =>
    by_cases h : c = '"' <;> simp [spec_double_quotes, h, ih]

/-- Helper: escape_identifier agrees with the spec-side quoting on every
string. -/
theorem escape_identifier_eq_spec_quote (s : String) :
    escape_identifier s = spec_quote s := by
  cases s with
  | mk data =>
    show "\"" ++ String.mk _ ++ "\"" = _
    rw [escape_data_eq_spec]
    rfl

/-- Helper: each generated column definition agrees with the spec-side
column definition. -/
theorem column_def_eq_spec (f : Field) :
    (let d := escape_identifier f.name ++ " " ++ f.sql_type
     let d := if f.is_primary_key then d ++ " PRIMARY KEY" else d
     let d := if !f.nullable && !f.is_primary_key then d ++ " NOT NULL" else d
     d) = spec_column_def f := by
  simp only [spec_column_def, escape_identifier_eq_spec_quote]
  by_cases hpk : f.is_primary_key <;> by_cases hn : f.nullable <;>
    simp [hpk, hn, String.append_assoc]

/-- C8: identifier escaping wraps every name in double quotes doubling any
embedded double quote (the collection named a"b escapes to "a""b"), and the
generated CREATE TABLE and INSERT statements apply this escaping to the
table name and to every column name they emit. -/
theorem escape_identifier_spec :
    escape_identifier "a\"b" = "\"a\"\"b\"" ∧
    (∀ s : String, escape_identifier s = spec_quote s) ∧
    (∀ sch : CollectionSchema,
      sch.to_create_table_sql = spec_create_table_sql sch ∧
      sch.to_insert_sql = spec_insert_sql sch) := by
  refine ⟨rfl, escape_identifier_eq_spec_quote, fun sch => ⟨?_, ?_⟩⟩
  · show "CREATE TABLE IF NOT EXISTS " ++ escape_identifier sch.collection_name ++ " (\n  " ++
      String.intercalate ",\n  " (sch.fields.map _) ++ "\n)" = _
    rw [escape_identifier_eq_spec_quote,
      List.map_congr_left (fun f _ => column_def_eq_spec f)]
    rfl
  · show "INSERT INTO " ++ escape_identifier sch.collection_name ++ " (" ++
      String.intercalate ", " (sch.fields.map (fun f => escape_identifier f.name)) ++
      ") VALUES (" ++ String.intercalate ", " (sch.fields.map (fun _ => "?")) ++ ")" = _
    rw [escape_identifier_eq_spec_quote,
      List.map_congr_left (fun (f : Field) _ => escape_identifier_eq_spec_quote f.name)]
    rfl

/-! Claim C2: the finalize decision procedure. -/

/-- Helper: an upper bound for all mapped values bounds the folded
maximum. -/
theorem foldr_max_le (c : String → Nat) (l : List String) (b : Nat)
    (h : ∀ t ∈ l, c t ≤ b) : (l.map c).foldr max 0 ≤ b := by
  induction l with
  | nil => simp
  | cons t ts ih =>
    simp only [List.map_cons, List.foldr_cons]
    exact max_le (h t (by simp)) (ih (fun u hu => h u (by simp [hu])))

/-- Helper: every member is bounded by the folded maximum. -/
theorem mem_le_foldr_max (c : String → Nat) (l : List String) (t : String)
    (h : t ∈ l) : c t ≤ (l.map c).foldr max 0 := by
  induction l with
  | nil => cases h
  | cons u us ih =>
    simp only [List.map_cons, List.foldr_cons]
    rcases List.mem_cons.mp h with h1 | h1
    · exact h1 ▸ le_max_left _ _
    · exact le_max_of_le_right (ih h1)

/-- Helper: a positive folded maximum is attained by some member. -/
theorem foldr_max_attained (c : String → Nat) (l : List String)
    (h : 0 < (l.map c).foldr max 0) : ∃ t ∈ l, c t = (l.map c).foldr max 0 := by
  induction l with
  | nil => simp at h
  | cons u us ih =>
    simp only [List.map_cons, List.foldr_cons] at h ⊢
    rcases le_or_lt (c u) ((us.map c).foldr max 0) with h1 | h1
    · rcases ih (lt_of_lt_of_le h (by simp [max_le_iff, h1])) with ⟨t, ht, hct⟩
      exact ⟨t, by simp [ht], by rw [hct, max_eq_right (hct ▸ h1)]⟩
    · exact ⟨u, by simp, (max_eq_left h1.le).symm⟩

/-- Helper: the maximum scan stays at the accumulator when no element
improves it. -/
theorem scan_stay (c : String → Nat) (l : List String) :
    ∀ (m : Nat) (w : String), (∀ t ∈ l, c t ≤ m) →
    l.foldl (fun acc t => if acc.1 < c t then (c t, t) else acc) ((m, w) : Nat × String)
      = (m, w) := by
  induction l with
  | nil => intro m w _; rfl
  | cons t ts ih =>
    intro m w h
    simp only [List.foldl_cons, if_neg (Nat.not_lt.mpr (h t (by simp)))]
    exact ih m w (fun u hu => h u (by simp [hu]))

/-- Helper: when some element strictly improves the accumulator, the scan
computes the maximum together with the first element attaining it. -/
theorem scan_improve (c : String → Nat) (l : List String) :
    ∀ (m : Nat) (w : String), (∃ t ∈ l, m < c t) →
    l.foldl (fun acc t => if acc.1 < c t then (c t, t) else acc) ((m, w) : Nat × String)
      = (max ((l.map c).foldr max 0) m,
          (l.find? (fun t => c t == max ((l.map c).foldr max 0) m)).getD w) := by
  induction l with
  | nil => rintro m w ⟨t, ht, -⟩; cases ht
  | cons t ts ih =>
    intro m w himp
    have hF : ((t :: ts).map c).foldr max 0 = max (c t) ((ts.map c).foldr max 0) := rfl
    by_cases h1 : m < c t
    · simp only [List.foldl_cons, if_pos h1]
      by_cases h2 : ∃ u ∈ ts, c t < c u
      · obtain ⟨u, hu, hcu⟩ := h2
        have hFts : c t < (ts.map c).foldr max 0 :=
          lt_of_lt_of_le hcu (mem_le_foldr_max c ts u hu)
        have hFc : ((t :: ts).map c).foldr max 0 = (ts.map c).foldr max 0 := by
          rw [hF, max_eq_right hFts.le]
        have hmm : max ((ts.map c).foldr max 0) m = (ts.map c).foldr max 0 :=
          max_eq_left (le_of_lt (lt_trans h1 hFts))
        have hmc : max ((ts.map c).foldr max 0) (c t) = (ts.map c).foldr max 0 :=
          max_eq_left hFts.le
        rw [ih (c t) t ⟨u, hu, hcu⟩, hFc, hmm, hmc,
          List.find?_cons_of_neg _ (by simp [Nat.ne_of_lt hFts])]
        have hpos : 0 < (ts.map c).foldr max 0 := Nat.lt_of_le_of_lt (Nat.zero_le _) hFts
        obtain ⟨v, hv, hcv⟩ := foldr_max_attained c ts hpos
        obtain ⟨x, hx⟩ : ∃ x, ts.find? (fun u => c u == (ts.map c).foldr max 0) = some x := by
          have hsome : (ts.find? (fun u => c u == (ts.map c).foldr max 0)).isSome := by
            rw [List.find?_isSome]
            exact ⟨v, hv, by simp [hcv]⟩
          exact Option.isSome_iff_exists.mp hsome
        rw [hx]
        simp
      · push_neg at h2
        rw [scan_stay c ts (c t) t h2]
        have hFle : (ts.map c).foldr max 0 ≤ c t := foldr_max_le c ts (c t) h2
        have hFc : ((t :: ts).map c).foldr max 0 = c t := by rw [hF, max_eq_left hFle]
        rw [hFc, max_eq_left (le_of_lt h1), List.find?_cons_of_pos _ (by simp)]
        simp
    · simp only [List.foldl_cons, if_neg h1]
      obtain ⟨u, hu, hcu⟩ := himp
      have hu1 : u ∈ ts := by
        rcases List.mem_cons.mp hu with h | h
        · exact absurd (h ▸ hcu) h1
        · exact h
      have hFts : m < (ts.map c).foldr max 0 :=
        lt_of_lt_of_le hcu (mem_le_foldr_max c ts u hu1)
      have hct : c t < (ts.map c).foldr max 0 :=
        lt_of_le_of_lt (Nat.not_lt.mp h1) hFts
      have hFc : ((t :: ts).map c).foldr max 0 = (ts.map c).foldr max 0 := by
        rw [hF, max_eq_right hct.le]
      rw [ih m w ⟨u, hu1, hcu⟩, hFc, max_eq_left hFts.le,
        List.find?_cons_of_neg _ (by simp [Nat.ne_of_lt hct])]

/-- Helper: definitional shape of the spec maximum count. -/
theorem spec_max_count_eq (c : String → Nat) :
    spec_max_count c = List.foldr max 0 (List.map c type_priority) := rfl

/-- Helper: when the maximum count is positive, the nonzero-count conjunct
of the spec vote predicate is redundant. -/
theorem spec_vote_pred_eq (c : String → Nat) (hM : 0 < spec_max_count c) :
    (fun t => decide (0 < c t) && (c t == spec_max_count c))
      = (fun t : String => c t == spec_max_count c) := by
  funext t
  by_cases h : c t = spec_max_count c
  · simp [h, hM]
  · simp [h]

/-- Helper: when the maximum count is positive, the spec vote picks a class
with positive count equal to the maximum, drawn from the priority list. -/
theorem spec_vote_pos (c : String → Nat) (hM : 0 < spec_max_count c) :
    0 < c (spec_vote c) ∧ c (spec_vote c) = spec_max_count c ∧
      spec_vote c ∈ type_priority := by
  obtain ⟨v, hv, hcv⟩ := foldr_max_attained c type_priority hM
  obtain ⟨x, hx⟩ : ∃ x, type_priority.find?
      (fun t => c t == spec_max_count c) = some x := by
    have hsome : (type_priority.find? (fun t => c t == spec_max_count c)).isSome := by
      rw [List.find?_isSome]
      exact ⟨v, hv, by simp [spec_max_count_eq, hcv]⟩
    exact Option.isSome_iff_exists.mp hsome
  have hvote : spec_vote c = x := by
    unfold spec_vote
    rw [spec_vote_pred_eq c hM, hx]
    rfl
  have hpx : c x = spec_max_count c := by
    have := List.find?_some hx
    simpa using this
  have hmx : x ∈ type_priority := List.mem_of_find?_eq_some hx
  rw [hvote]
  exact ⟨hpx ▸ hM, hpx, hmx⟩

/-- Helper: a list containing two distinct elements has more than one
element. -/
theorem one_lt_length_of_two_mem {a b : String} {l : List String}
    (ha : a ∈ l) (hb : b ∈ l) (hab : a ≠ b) : 1 < l.length := by
  match l with
  | [] => cases ha
  | [x] =>
    rcases List.mem_singleton.mp ha with rfl
    rcases List.mem_singleton.mp hb with rfl
    exact absurd rfl hab
  | x :: y :: rest => simp [List.length_cons]

/-- Helper: full characterization of FieldInfo.finalize under the invariants
of the recorded counters (the key list enumerates exactly the classes with
positive count, all drawn from the five storage classes): the priority scan
computes the spec vote, and only the NULL override can change it. -/
theorem finalize_eq (fi : FieldInfo)
    (hne : fi.type_keys ≠ [])
    (hsub : ∀ t ∈ fi.type_keys, t ∈ type_priority)
    (hmem : ∀ t, t ∈ fi.type_keys ↔ 0 < fi.type_counts t) :
    fi.finalize =
      if spec_vote fi.type_counts = "NULL" ∧ 1 < fi.type_keys.length then
        match fi.type_keys.find? (fun t => t != "NULL" && decide (0 < fi.type_counts t)) with
        | some t => t
        | none => spec_vote fi.type_counts
      else spec_vote fi.type_counts := by
  obtain ⟨t0, l0, hk⟩ : ∃ a l, fi.type_keys = a :: l := by
    cases hk : fi.type_keys with
    | nil => exact absurd hk hne
    | cons a l => exact ⟨a, l, rfl⟩
  have ht0 : t0 ∈ fi.type_keys := by rw [hk]; exact List.mem_cons_self t0 l0
  have ht0p : t0 ∈ type_priority := hsub t0 ht0
  have ht0c : 0 < fi.type_counts t0 := (hmem t0).mp ht0
  have hM : 0 < spec_max_count fi.type_counts :=
    lt_of_lt_of_le ht0c (mem_le_foldr_max fi.type_counts type_priority t0 ht0p)
  have hscan := scan_improve fi.type_counts type_priority 0 "TEXT" ⟨t0, ht0p, ht0c⟩
  simp only [Nat.max_zero] at hscan
  obtain ⟨v, hv, hcv⟩ := foldr_max_attained fi.type_counts type_priority hM
  obtain ⟨x, hx⟩ : ∃ x, type_priority.find?
      (fun t => fi.type_counts t == spec_max_count fi.type_counts) = some x := by
    have hsome : (type_priority.find?
        (fun t => fi.type_counts t == spec_max_count fi.type_counts)).isSome := by
      rw [List.find?_isSome]
      exact ⟨v, hv, by simp [spec_max_count_eq, hcv]⟩
    exact Option.isSome_iff_exists.mp hsome
  have hvote : spec_vote fi.type_counts = x := by
    unfold spec_vote
    rw [spec_vote_pred_eq fi.type_counts hM, hx]
    rfl
  have hcondeq : (fun (acc : Nat × String) t =>
        if t ∈ fi.type_keys ∧ acc.1 < fi.type_counts t then (fi.type_counts t, t) else acc)
      = (fun (acc : Nat × String) t =>
        if acc.1 < fi.type_counts t then (fi.type_counts t, t) else acc) := by
    funext acc t
    by_cases h : acc.1 < fi.type_counts t
    · rw [if_pos h, if_pos ⟨(hmem t).mpr (lt_of_le_of_lt (Nat.zero_le _) h), h⟩]
    · rw [if_neg h, if_neg (fun hc => h hc.2)]
  unfold FieldInfo.finalize
  rw [if_neg hne]
  simp only [hcondeq, hscan]
  simp only [← spec_max_count_eq]
  simp only [hx, Option.getD_some]
  rw [if_neg (Nat.pos_iff_ne_zero.mp hM), hvote]

/-- A field observed 5 times as INTEGER and 5 times as REAL. -/
def fi_int_real_tie : FieldInfo :=
  { type_counts := fun t => if t = "INTEGER" then 5 else if t = "REAL" then 5 else 0
    type_keys := ["INTEGER", "REAL"]
    presence_count := 10 }

/-- A field observed 3 times as NULL and once as TEXT. -/
def fi_null_text : FieldInfo :=
  { type_counts := fun t => if t = "NULL" then 3 else if t = "TEXT" then 1 else 0
    type_keys := ["NULL", "TEXT"]
    presence_count := 4 }

/-- C2: for every recorded field counter (the key list enumerates exactly
the classes with positive count, drawn from the five storage classes, in any
iteration order), finalize returns the class with the highest count, ties
broken by the priority order INTEGER, REAL, TEXT, BLOB, NULL (the spec
vote); when that winner is NULL but a non-NULL class was also observed, the
result is overridden to a non-NULL observed class. In particular INTEGER 5
versus REAL 5 resolves to INTEGER, and NULL 3 with TEXT 1 resolves to
TEXT. -/
theorem finalize_priority_plurality (fi : FieldInfo)
    (hne : fi.type_keys ≠ [])
    (hsub : ∀ t ∈ fi.type_keys, t ∈ type_priority)
    (hmem : ∀ t, t ∈ fi.type_keys ↔ 0 < fi.type_counts t) :
    (spec_vote fi.type_counts ≠ "NULL" → fi.finalize = spec_vote fi.type_counts) ∧
    (spec_vote fi.type_counts = "NULL" → (∃ t ∈ fi.type_keys, t ≠ "NULL") →
      fi.finalize ≠ "NULL" ∧ fi.finalize ∈ fi.type_keys) ∧
    fi_int_real_tie.finalize = "INTEGER" ∧
    fi_null_text.finalize = "TEXT" := by
  refine ⟨?_, ?_, by decide, by decide⟩
  · intro h
    rw [finalize_eq fi hne hsub hmem, if_neg (fun hc => h hc.1)]
  · rintro hnull ⟨t, ht, htn⟩
    have hM : 0 < spec_max_count fi.type_counts :=
      lt_of_lt_of_le ((hmem t).mp ht)
        (mem_le_foldr_max fi.type_counts type_priority t (hsub t ht))
    have hNpos : 0 < fi.type_counts "NULL" := by
      have hsp := (spec_vote_pos fi.type_counts hM).1
      rwa [hnull] at hsp
    have hNmem : "NULL" ∈ fi.type_keys := (hmem "NULL").mpr hNpos
    have hlen : 1 < fi.type_keys.length := one_lt_length_of_two_mem ht hNmem htn
    rw [finalize_eq fi hne hsub hmem, if_pos ⟨hnull, hlen⟩]
    have hfs : (fi.type_keys.find?
        (fun u => u != "NULL" && decide (0 < fi.type_counts u))).isSome := by
      rw [List.find?_isSome]
      exact ⟨t, ht, by simp [htn, (hmem t).mp ht]⟩
    obtain ⟨u, hu⟩ := Option.isSome_iff_exists.mp hfs
    rw [hu]
    have hp := List.find?_some hu
    simp only [Bool.and_eq_true, bne_iff_ne, decide_eq_true_eq] at hp
    exact ⟨hp.1, (hmem u).mpr hp.2⟩

/-- Witness for C2: the tied INTEGER and REAL counter satisfies the
hypotheses and resolves to the spec vote. -/
theorem finalize_priority_plurality_witness :
    fi_int_real_tie.finalize = spec_vote fi_int_real_tie.type_counts :=
  (finalize_priority_plurality fi_int_real_tie (by decide) (by decide)
    (by
      intro t
      by_cases h1 : t = "INTEGER"
      · simp [fi_int_real_tie, h1]
      · by_cases h2 : t = "REAL" <;> simp [fi_int_real_tie, h1, h2])).1
    (by decide)

/-! Claims C1, C5, C7: structure of the inferred schema. -/

/-- Helper: membership in the key list after one record update. -/
theorem record_fkeys_mem (fm : FieldMap) (key : String) (v : Bson) (k : String) :
    k ∈ (fm.record key v).fkeys ↔ k = key ∨ k ∈ fm.fkeys := by
  unfold FieldMap.record
  by_cases h : key ∈ fm.fkeys
  · simp only [if_pos h]
    constructor
    · exact Or.inr
    · rintro (rfl | hk)
      · exact h
      · exact hk
  · simp [h, List.mem_append, or_comm]

/-- Helper: one record update preserves distinctness of the key list. -/
theorem record_fkeys_nodup (fm : FieldMap) (key : String) (v : Bson)
    (h : fm.fkeys.Nodup) : (fm.record key v).fkeys.Nodup := by
  unfold FieldMap.record
  by_cases hk : key ∈ fm.fkeys
  · simpa [hk] using h
  · simp [hk, List.nodup_append, h]

/-- Helper: key membership after folding one document into the map. -/
theorem doc_fold_fkeys_mem (pairs : List (String × Bson)) :
    ∀ (fm : FieldMap) (k : String),
    k ∈ (pairs.foldl (fun fm kv => fm.record kv.1 kv.2) fm).fkeys ↔
      k ∈ pairs.map Prod.fst ∨ k ∈ fm.fkeys := by
  induction pairs with
  | nil => intro fm k; simp
  | cons kv rest ih =>
    intro fm k
    simp only [List.foldl_cons, List.map_cons, List.mem_cons]
    rw [ih, record_fkeys_mem]
    tauto

/-- Helper: folding one document preserves distinctness of the key list. -/
theorem doc_fold_fkeys_nodup (pairs : List (String × Bson)) :
    ∀ (fm : FieldMap), fm.fkeys.Nodup →
    (pairs.foldl (fun fm kv => fm.record kv.1 kv.2) fm).fkeys.Nodup := by
  induction pairs with
  | nil => intro fm h; exact h
  | cons kv rest ih =>
    intro fm h
    exact ih _ (record_fkeys_nodup fm kv.1 kv.2 h)

/-- Helper: key membership after folding a list of documents. -/
theorem docs_fold_fkeys_mem (documents : List Doc) :
    ∀ (fm : FieldMap) (k : String),
    k ∈ (documents.foldl
        (fun fm doc => doc.foldl (fun fm kv => fm.record kv.1 kv.2) fm) fm).fkeys ↔
      (∃ d ∈ documents, k ∈ d.map Prod.fst) ∨ k ∈ fm.fkeys := by
  induction documents with
  | nil => intro fm k; simp
  | cons d rest ih =>
    intro fm k
    simp only [List.foldl_cons, List.exists_mem_cons_iff]
    rw [ih, doc_fold_fkeys_mem]
    constructor
    · rintro (h | h | h)
      · exact Or.inl (Or.inr h)
      · exact Or.inl (Or.inl h)
      · exact Or.inr h
    · rintro ((h | h) | h)
      · exact Or.inr (Or.inl h)
      · exact Or.inl h
      · exact Or.inr (Or.inr h)

/-- Helper: the observed field names are exactly the keys of the analysis
map; a field name is recorded exactly when some sampled document carries
it. -/
theorem analyze_fkeys_mem (documents : List Doc) (k : String) :
    k ∈ (analyze_documents documents).fkeys ↔
      ∃ d ∈ documents, k ∈ d.map Prod.fst := by
  unfold analyze_documents
  rw [docs_fold_fkeys_mem]
  simp [FieldMap.empty]

/-- Helper: folding a list of documents preserves distinctness of the key
list. -/
theorem docs_fold_fkeys_nodup (documents : List Doc) :
    ∀ (fm : FieldMap), fm.fkeys.Nodup →
    (documents.foldl
        (fun fm doc => doc.foldl (fun fm kv => fm.record kv.1 kv.2) fm) fm).fkeys.Nodup := by
  induction documents with
  | nil => intro fm h; exact h
  | cons d rest ih =>
    intro fm h
    exact ih _ (doc_fold_fkeys_nodup d fm h)

/-- Helper: the key list of the analysis map is distinct. -/
theorem analyze_fkeys_nodup (documents : List Doc) :
    (analyze_documents documents).fkeys.Nodup :=
  docs_fold_fkeys_nodup documents FieldMap.empty (by simp [FieldMap.empty])

/-- Helper: closed form of infer_schema on a non-empty sample. -/
theorem infer_schema_fields (c : String) (documents : List Doc)
    (hne : documents.isEmpty = false) :
    SchemaInferrer.infer_schema c documents =
      { collection_name := c
        fields :=
          (if "_id" ∈ (analyze_documents documents).fkeys then
            [{ name := "_id",
               sql_type := ((analyze_documents documents).infos "_id").finalize,
               nullable := false, is_primary_key := true }]
          else []) ++
          (((analyze_documents documents).fkeys.filter (fun k => k != "_id")).insertionSort
              (· ≤ ·)).map (fun k =>
            ({ name := k, sql_type := ((analyze_documents documents).infos k).finalize,
               nullable := true, is_primary_key := false } : Field)) } := by
  unfold SchemaInferrer.infer_schema
  rw [if_neg (by simp [hne])]

/-- C1 (amended): for every non-empty sample in which some document carries
a field _id, the inferred schema starts with the _id column, which is the
sole primary key and not nullable; its storage class is the finalize
(priority plurality) vote over the classes observed for _id in the sample,
not unconditionally TEXT. -/
theorem infer_schema_id_column (c : String) (documents : List Doc)
    (hne : documents ≠ [])
    (hobs : ∃ d ∈ documents, "_id" ∈ d.map Prod.fst) :
    ∃ rest, (SchemaInferrer.infer_schema c documents).fields =
        { name := "_id", sql_type := ((analyze_documents documents).infos "_id").finalize,
          nullable := false, is_primary_key := true } :: rest ∧
      ∀ f ∈ rest, f.is_primary_key = false ∧ f.nullable = true := by
  have hne2 : documents.isEmpty = false := by
    cases documents with
    | nil => exact absurd rfl hne
    | cons d rest => rfl
  rw [infer_schema_fields c documents hne2]
  rw [if_pos ((analyze_fkeys_mem documents "_id").mpr hobs)]
  refine ⟨_, rfl, ?_⟩
  intro f hf
  obtain ⟨k, hk, rfl⟩ := List.mem_map.mp hf
  exact ⟨rfl, rfl⟩

/-- Witness for C1 (amended) at a concrete sample with an object id under
_id. -/
theorem infer_schema_id_column_witness :
    ∃ rest, (SchemaInferrer.infer_schema "users"
        [[("_id", Bson.objectId "abc")]]).fields =
        { name := "_id",
          sql_type := ((analyze_documents [[("_id", Bson.objectId "abc")]]).infos "_id").finalize,
          nullable := false, is_primary_key := true } :: rest ∧
      ∀ f ∈ rest, f.is_primary_key = false ∧ f.nullable = true :=
  infer_schema_id_column "users" [[("_id", Bson.objectId "abc")]]
    (List.cons_ne_nil _ _) ⟨_, List.mem_singleton_self _, by simp⟩

/-- C1 counterexample: a sample whose only _id value is a 32 bit integer
produces an INTEGER _id column, refuting storage class TEXT regardless of
the observed types. -/
theorem infer_schema_id_integer_counterexample :
    (SchemaInferrer.infer_schema "users" [[("_id", Bson.int32 1)]]).fields.map
        (fun f => (f.name, f.sql_type)) = [("_id", "INTEGER")] ∧
      ("INTEGER" : String) ≠ "TEXT" := by
  decide

/-- C5 (amended): the empty sample yields the minimal schema whose only
column is _id TEXT, primary key, not nullable; but a non-empty sample in
which no document carries _id yields a schema with no _id column at all —
every column keeps its observed name, is nullable and is not a primary
key. No _id column is synthesized. -/
theorem infer_schema_no_id_synthesis :
    (∀ c : String, SchemaInferrer.infer_schema c [] = SchemaInferrer.create_empty_schema c) ∧
    (∀ (c : String) (documents : List Doc), documents ≠ [] →
      (∀ d ∈ documents, "_id" ∉ d.map Prod.fst) →
      ∀ f ∈ (SchemaInferrer.infer_schema c documents).fields,
        f.name ≠ "_id" ∧ f.nullable = true ∧ f.is_primary_key = false) := by
  constructor
  · intro c; rfl
  · intro c documents hne hno f hf
    have hne2 : documents.isEmpty = false := by
      cases documents with
      | nil => exact absurd rfl hne
      | cons d rest => rfl
    rw [infer_schema_fields c documents hne2] at hf
    rw [if_neg (fun hid => by
      obtain ⟨d, hd, hk⟩ := (analyze_fkeys_mem documents "_id").mp hid
      exact hno d hd hk)] at hf
    simp only [List.nil_append] at hf
    obtain ⟨k, hk, rfl⟩ := List.mem_map.mp hf
    refine ⟨?_, rfl, rfl⟩
    have hk2 : k ∈ (analyze_documents documents).fkeys.filter (fun k => k != "_id") :=
      (List.Perm.mem_iff (List.perm_insertionSort _ _)).mp hk
    simpa using List.of_mem_filter hk2

/-- Witness for C5 (amended): the single-document sample without _id yields
the lone nullable non-key column name. -/
theorem infer_schema_no_id_synthesis_witness :
    (Field.mk "name" "TEXT" true false).name ≠ "_id" ∧
      (Field.mk "name" "TEXT" true false).nullable = true ∧
      (Field.mk "name" "TEXT" true false).is_primary_key = false :=
  infer_schema_no_id_synthesis.2 "users" [[("name", Bson.string "Alice")]]
    (List.cons_ne_nil _ _) (by decide) _ (by decide)

/-- C5 counterexample: a non-empty sample without _id produces a schema
whose only column is the observed field; no _id column is synthesized. -/
theorem infer_schema_no_id_counterexample :
    ((SchemaInferrer.infer_schema "users" [[("name", Bson.string "Alice")]]).fields.map
        (fun f => f.name)) = ["name"] ∧
      "_id" ∉ ((SchemaInferrer.infer_schema "users"
        [[("name", Bson.string "Alice")]]).fields.map (fun f => f.name)) := by
  decide

/-- Helper: the names of the non-_id columns of an inferred schema are the
sorted distinct observed non-_id field names. -/
theorem infer_schema_non_id_names (c : String) (documents : List Doc)
    (hne : documents.isEmpty = false) :
    ((SchemaInferrer.infer_schema c documents).fields.filter
        (fun f => f.name != "_id")).map Field.name =
      ((analyze_documents documents).fkeys.filter (fun k => k != "_id")).insertionSort
        (· ≤ ·) := by
  rw [infer_schema_fields c documents hne]
  dsimp only
  rw [List.filter_append]
  have hid : (((if "_id" ∈ (analyze_documents documents).fkeys then
      [{ name := "_id", sql_type := ((analyze_documents documents).infos "_id").finalize,
         nullable := false, is_primary_key := true }]
      else []) : List Field).filter (fun f => f.name != "_id")) = [] := by
    by_cases h : "_id" ∈ (analyze_documents documents).fkeys <;> simp [h]
  rw [hid, List.nil_append]
  have hf : (((((analyze_documents documents).fkeys.filter (fun k => k != "_id")).insertionSort
        (· ≤ ·)).map (fun k =>
        ({ name := k, sql_type := ((analyze_documents documents).infos k).finalize,
           nullable := true, is_primary_key := false } : Field))).filter
      (fun f => f.name != "_id")) =
      ((((analyze_documents documents).fkeys.filter (fun k => k != "_id")).insertionSort
        (· ≤ ·)).map (fun k =>
        ({ name := k, sql_type := ((analyze_documents documents).infos k).finalize,
           nullable := true, is_primary_key := false } : Field))) := by
    rw [List.filter_eq_self]
    intro f hf
    obtain ⟨k, hk, rfl⟩ := List.mem_map.mp hf
    have hk2 : k ∈ (analyze_documents documents).fkeys.filter (fun k => k != "_id") :=
      (List.Perm.mem_iff (List.perm_insertionSort _ _)).mp hk
    exact (List.mem_filter.mp hk2).2
  rw [hf, List.map_map]
  have hcomp : (Field.name ∘ fun k =>
      ({ name := k, sql_type := ((analyze_documents documents).infos k).finalize,
         nullable := true, is_primary_key := false } : Field)) = fun k : String => k := rfl
  rw [hcomp]
  simp

/-- C7: the non-_id columns of the inferred schema are ordered by field name
ascending and are all nullable, and the sequence of column names does not
depend on the order of the sampled documents. -/
theorem infer_schema_sorted_order_independent (c : String) (docs1 docs2 : List Doc)
    (hperm : docs1.Perm docs2) :
    List.Sorted (· ≤ ·) (((SchemaInferrer.infer_schema c docs1).fields.filter
        (fun f => f.name != "_id")).map Field.name) ∧
    (∀ f ∈ (SchemaInferrer.infer_schema c docs1).fields,
      f.name ≠ "_id" → f.nullable = true) ∧
    (SchemaInferrer.infer_schema c docs1).field_names =
      (SchemaInferrer.infer_schema c docs2).field_names := by
  by_cases hemp : docs1.isEmpty = true
  · have h1 : docs1 = [] := List.isEmpty_iff.mp hemp
    have h2 : docs2 = [] :=
      List.length_eq_zero.mp (by rw [← hperm.length_eq, h1]; rfl)
    subst h1
    subst h2
    refine ⟨by simp [SchemaInferrer.infer_schema, SchemaInferrer.create_empty_schema], ?_, rfl⟩
    intro f hf hname
    simp [SchemaInferrer.infer_schema, SchemaInferrer.create_empty_schema] at hf
    subst hf
    exact absurd rfl hname
  · have hne1 : docs1.isEmpty = false := eq_false_of_ne_true hemp
    have hne2 : docs2.isEmpty = false := by
      cases h2 : docs2 with
      | nil =>
        exfalso
        have hl : docs1 = [] :=
          List.length_eq_zero.mp (by rw [hperm.length_eq, h2]; rfl)
        rw [hl] at hne1
        simp at hne1
      | cons d rest => rfl
    refine ⟨?_, ?_, ?_⟩
    · rw [infer_schema_non_id_names c docs1 hne1]
      exact List.sorted_insertionSort _ _
    · intro f hf hname
      rw [infer_schema_fields c docs1 hne1] at hf
      rcases List.mem_append.mp hf with h | h
      · exfalso
        by_cases hid : "_id" ∈ (analyze_documents docs1).fkeys
        · rw [if_pos hid] at h
          rw [List.mem_singleton.mp h] at hname
          exact hname rfl
        · rw [if_neg hid] at h
          cases h
      · obtain ⟨k, hk, rfl⟩ := List.mem_map.mp h
        rfl
    · have hmem : ∀ k : String,
          k ∈ (analyze_documents docs1).fkeys ↔ k ∈ (analyze_documents docs2).fkeys := by
        intro k
        rw [analyze_fkeys_mem, analyze_fkeys_mem]
        constructor
        · rintro ⟨d, hd, h⟩; exact ⟨d, hperm.mem_iff.mp hd, h⟩
        · rintro ⟨d, hd, h⟩; exact ⟨d, hperm.mem_iff.mpr hd, h⟩
      have hsorted_eq :
          ((analyze_documents docs1).fkeys.filter (fun k => k != "_id")).insertionSort (· ≤ ·) =
          ((analyze_documents docs2).fkeys.filter (fun k => k != "_id")).insertionSort (· ≤ ·) := by
        apply List.eq_of_perm_of_sorted ?_ (List.sorted_insertionSort _ _)
          (List.sorted_insertionSort _ _)
        have hp : ((analyze_documents docs1).fkeys.filter (fun k => k != "_id")).Perm
            ((analyze_documents docs2).fkeys.filter (fun k => k != "_id")) := by
          rw [List.perm_ext_iff_of_nodup
            ((analyze_fkeys_nodup docs1).filter _) ((analyze_fkeys_nodup docs2).filter _)]
          intro k
          rw [List.mem_filter, List.mem_filter, hmem k]
        exact ((List.perm_insertionSort _ _).trans hp).trans
          (List.perm_insertionSort _ _).symm
      rw [CollectionSchema.field_names, CollectionSchema.field_names,
        infer_schema_fields c docs1 hne1, infer_schema_fields c docs2 hne2]
      dsimp only
      rw [List.map_append, List.map_append, List.map_map, List.map_map]
      by_cases hid : "_id" ∈ (analyze_documents docs1).fkeys
      · rw [if_pos hid, if_pos ((hmem "_id").mp hid), hsorted_eq]
        rfl
      · rw [if_neg hid, if_neg (fun h => hid ((hmem "_id").mpr h)), hsorted_eq]
        rfl

/-- Witness for C7 at a concrete two-document sample and its swap. -/
theorem infer_schema_sorted_order_independent_witness :
    (SchemaInferrer.infer_schema "users"
        [[("b", Bson.int32 1)], [("a", Bson.string "x")]]).field_names =
      (SchemaInferrer.infer_schema "users"
        [[("a", Bson.string "x")], [("b", Bson.int32 1)]]).field_names :=
  (infer_schema_sorted_order_independent "users"
    [[("b", Bson.int32 1)], [("a", Bson.string "x")]]
    [[("a", Bson.string "x")], [("b", Bson.int32 1)]]
    (List.Perm.swap _ _ _)).2.2

/-! Claims C3 and C9: transactional batch semantics of the data phase. -/

/-- The event trace of one successfully committed batch: BEGIN, one
execution of the insert template per row, COMMIT. -/
def batch_log (insert_sql : String) (batch : List Row) : List TxEvent :=
  TxEvent.begin :: (batch.map (TxEvent.exec insert_sql) ++ [TxEvent.commit batch.length])

/-- Spec-side description of the loop chunking: consuming the rows in
order, a chunk is flushed whenever the accumulator reaches batch_size;
returns the flushed chunks and the leftover accumulator. -/
def chunk_flushes (batch_size : Nat) : List Row → List Row → List (List Row) × List Row
  | [], batch => ([], batch)
  | r :: rs, batch =>
    let batch1 := batch ++ [r]
    if batch_size ≤ batch1.length then
      let p := chunk_flushes batch_size rs []
      (batch1 :: p.1, p.2)
    else chunk_flushes batch_size rs batch1

/-- Helper: the flushed chunks and the leftover partition the input. -/
theorem chunk_flushes_join (bs : Nat) (rs : List Row) :
    ∀ batch : List Row,
    (chunk_flushes bs rs batch).1.flatten ++ (chunk_flushes bs rs batch).2 = batch ++ rs := by
  induction rs with
  | nil => intro batch; simp [chunk_flushes]
  | cons r rs ih =>
    intro batch
    rw [chunk_flushes]
    by_cases h : bs ≤ (batch ++ [r]).length
    · simp only [if_pos h, List.flatten_cons, List.append_assoc]
      have h0 := ih []
      simp only [List.nil_append] at h0
      rw [h0]
      simp
    · simp only [if_neg h]
      rw [ih (batch ++ [r])]
      simp [List.append_assoc]

/-- Helper: every flushed chunk has exactly batch_size rows and the leftover
is a strictly smaller partial batch. -/
theorem chunk_flushes_shape (bs : Nat) (hbs : 0 < bs) (rs : List Row) :
    ∀ batch : List Row, batch.length < bs →
    (∀ c ∈ (chunk_flushes bs rs batch).1, c.length = bs) ∧
      (chunk_flushes bs rs batch).2.length < bs := by
  induction rs with
  | nil =>
    intro batch hb
    exact ⟨fun c hc => absurd hc (by simp [chunk_flushes]), by simpa [chunk_flushes] using hb⟩
  | cons r rs ih =>
    intro batch hb
    rw [chunk_flushes]
    by_cases h : bs ≤ (batch ++ [r]).length
    · have hlen : (batch ++ [r]).length = bs := by
        simp only [List.length_append, List.length_singleton] at h ⊢
        omega
      simp only [if_pos h]
      refine ⟨?_, (ih [] (by simpa using hbs)).2⟩
      intro c hc
      rcases List.mem_cons.mp hc with rfl | hc
      · exact hlen
      · exact (ih [] (by simpa using hbs)).1 c hc
    · have hlen : (batch ++ [r]).length < bs := by
        simp only [List.length_append, List.length_singleton] at h ⊢
        omega
      simp only [if_neg h]
      exact ih (batch ++ [r]) hlen

/-- Helper: the flattened length of uniformly sized chunks. -/
theorem flatten_length_uniform (bs : Nat) (l : List (List Row))
    (h : ∀ c ∈ l, c.length = bs) : l.flatten.length = bs * l.length := by
  induction l with
  | nil => simp
  | cons c cs ih =>
    simp only [List.flatten_cons, List.length_append, List.length_cons,
      h c (by simp), ih (fun c hc => h c (by simp [hc]))]
    ring

/-- Helper: uniqueness of Euclidean division. -/
theorem div_mod_of_eq (bs q r a : Nat) (hbs : 0 < bs) (hr : r < bs)
    (ha : a = bs * q + r) : q = a / bs ∧ r = a % bs := by
  subst ha
  constructor
  · rw [Nat.mul_add_div hbs, Nat.div_eq_of_lt hr]
    omega
  · rw [Nat.mul_add_mod, Nat.mod_eq_of_lt hr]


/-- Helper: successful row executions inside an open transaction append to
the buffer and log one execution per row. -/
theorem insert_batch_inner_ok (ok : Row → Bool) (sql : String) (batch : List Row) :
    ∀ (s : SqlState) (buf : List Row), s.txn = some buf →
    (∀ r ∈ batch, ok r = true) →
    Migrator.insert_batch_inner ok sql batch s =
      Except.ok { committed := s.committed, txn := some (buf ++ batch),
                  log := s.log ++ batch.map (TxEvent.exec sql) } := by
  induction batch with
  | nil =>
    intro s buf htxn h
    simp [Migrator.insert_batch_inner, ← htxn]
  | cons r rest ih =>
    intro s buf htxn h
    rw [Migrator.insert_batch_inner]
    have hstep : exec_insert ok sql r s =
        some { committed := s.committed, txn := some (buf ++ [r]),
               log := s.log ++ [TxEvent.exec sql r] } := by
      unfold exec_insert
      rw [if_pos (h r (by simp)), htxn]
    have hrec := ih ⟨s.committed, some (buf ++ [r]), s.log ++ [TxEvent.exec sql r]⟩
      (buf ++ [r]) rfl (fun x hx => h x (by simp [hx]))
    rw [hstep]
    dsimp only
    rw [hrec]
    simp [List.append_assoc]

/-- Helper: a fully successful non-empty batch is wrapped in BEGIN and
COMMIT and becomes visible atomically. -/
theorem insert_batch_ok (ok : Row → Bool) (sql : String) (batch : List Row)
    (s : SqlState) (htxn : s.txn = none) (hne : batch ≠ [])
    (h : ∀ r ∈ batch, ok r = true) :
    Migrator.insert_batch ok sql batch s =
      Except.ok { committed := s.committed ++ batch, txn := none,
                  log := s.log ++ batch_log sql batch } := by
  unfold Migrator.insert_batch
  rw [if_neg (by simpa using hne)]
  rw [insert_batch_inner_ok ok sql batch (exec_begin s) [] rfl h]
  unfold exec_commit exec_begin batch_log
  simp [List.append_assoc]

/-- Helper: inside an open transaction, the first failing row aborts the
remaining executions; the error carries the state at the failure. -/
theorem insert_batch_inner_err (ok : Row → Bool) (sql : String) (good : List Row) :
    ∀ (bad : Row) (rest : List Row) (s : SqlState) (buf : List Row),
    s.txn = some buf → (∀ r ∈ good, ok r = true) → ok bad = false →
    Migrator.insert_batch_inner ok sql (good ++ bad :: rest) s =
      Except.error { committed := s.committed, txn := some (buf ++ good),
                     log := s.log ++ good.map (TxEvent.exec sql) } := by
  induction good with
  | nil =>
    intro bad rest s buf htxn hg hbad
    rw [List.nil_append, Migrator.insert_batch_inner]
    have hstep : exec_insert ok sql bad s = none := by
      unfold exec_insert
      rw [if_neg (by simp [hbad])]
    rw [hstep]
    simp [← htxn]
  | cons g gs ih =>
    intro bad rest s buf htxn hg hbad
    rw [List.cons_append, Migrator.insert_batch_inner]
    have hstep : exec_insert ok sql g s =
        some { committed := s.committed, txn := some (buf ++ [g]),
               log := s.log ++ [TxEvent.exec sql g] } := by
      unfold exec_insert
      rw [if_pos (hg g (by simp)), htxn]
    have hrec := ih bad rest ⟨s.committed, some (buf ++ [g]), s.log ++ [TxEvent.exec sql g]⟩
      (buf ++ [g]) rfl (fun x hx => hg x (by simp [hx])) hbad
    rw [hstep]
    dsimp only
    rw [hrec]
    simp [List.append_assoc]

/-- Helper: a batch containing a failing row is rolled back as a whole: no
row of the batch becomes visible, the log records BEGIN, the executions
before the failure, and ROLLBACK, and the error propagates. -/
theorem insert_batch_err (ok : Row → Bool) (sql : String) (good : List Row)
    (bad : Row) (rest : List Row) (s : SqlState) (htxn : s.txn = none)
    (hg : ∀ r ∈ good, ok r = true) (hbad : ok bad = false) :
    Migrator.insert_batch ok sql (good ++ bad :: rest) s =
      Except.error { committed := s.committed, txn := none,
                     log := s.log ++ TxEvent.begin ::
                       (good.map (TxEvent.exec sql) ++ [TxEvent.rollback]) } := by
  unfold Migrator.insert_batch
  rw [if_neg (by cases good <;> simp)]
  rw [insert_batch_inner_err ok sql good bad rest (exec_begin s) [] rfl hg hbad]
  unfold exec_rollback exec_begin
  simp [List.append_assoc]

/-- Helper: the streaming loop processes a concatenated stream by
sequencing, propagating the first error. -/
theorem migrate_loop_append (ok : Row → Bool) (bs : Nat) (sql : String)
    (fns : List String) (ctx : SerCtx) (xs : List Doc) :
    ∀ (ys : List Doc) (batch : List Row) (tm : Nat) (s : SqlState),
    Migrator.migrate_loop ok bs sql fns ctx (xs ++ ys) batch tm s =
      match Migrator.migrate_loop ok bs sql fns ctx xs batch tm s with
      | Except.ok (s1, b1, t1) => Migrator.migrate_loop ok bs sql fns ctx ys b1 t1 s1
      | Except.error e => Except.error e := by
  induction xs with
  | nil => intro ys batch tm s; rfl
  | cons d ds ih =>
    intro ys batch tm s
    rw [List.cons_append]
    simp only [Migrator.migrate_loop]
    by_cases h : bs ≤ (batch ++ [document_to_sql_values ctx d fns]).length
    · simp only [if_pos h]
      cases hib : Migrator.insert_batch ok sql
          (batch ++ [document_to_sql_values ctx d fns]) s with
      | ok s1 => exact ih ys [] _ s1
      | error e => rfl
    · simp only [if_neg h]
      exact ih ys _ tm s

/-- Helper: with every insert accepted, the streaming loop flushes exactly
the chunk_flushes chunks, each as one committed transaction with one
execution per row, and keeps the leftover accumulated. -/
theorem migrate_loop_ok (ok : Row → Bool) (bs : Nat) (sql : String)
    (fns : List String) (ctx : SerCtx) (hbs : 0 < bs) (docs : List Doc) :
    ∀ (batch : List Row) (tm : Nat) (s : SqlState), s.txn = none → batch.length < bs →
    (∀ r ∈ batch, ok r = true) →
    (∀ d ∈ docs, ok (document_to_sql_values ctx d fns) = true) →
    Migrator.migrate_loop ok bs sql fns ctx docs batch tm s =
      Except.ok
        (⟨s.committed ++ (chunk_flushes bs
            (docs.map (fun d => document_to_sql_values ctx d fns)) batch).1.flatten,
          none,
          s.log ++ ((chunk_flushes bs
            (docs.map (fun d => document_to_sql_values ctx d fns)) batch).1.map
              (batch_log sql)).flatten⟩,
         (chunk_flushes bs (docs.map (fun d => document_to_sql_values ctx d fns)) batch).2,
         tm + (chunk_flushes bs
            (docs.map (fun d => document_to_sql_values ctx d fns)) batch).1.flatten.length) := by
  induction docs with
  | nil =>
    intro batch tm s htxn hb hba hdo
    obtain ⟨sc, st, sl⟩ := s
    simp only [SqlState.txn] at htxn
    subst htxn
    simp [Migrator.migrate_loop, chunk_flushes]
  | cons d ds ih =>
    intro batch tm s htxn hb hba hdo
    simp only [Migrator.migrate_loop, List.map_cons, chunk_flushes]
    by_cases h : bs ≤ (batch ++ [document_to_sql_values ctx d fns]).length
    · simp only [if_pos h]
      have hall : ∀ r ∈ batch ++ [document_to_sql_values ctx d fns], ok r = true := by
        intro r hr
        rcases List.mem_append.mp hr with h1 | h1
        · exact hba r h1
        · rw [List.mem_singleton.mp h1]
          exact hdo d (by simp)
      have hrec := ih [] (tm + (batch ++ [document_to_sql_values ctx d fns]).length)
        ⟨s.committed ++ (batch ++ [document_to_sql_values ctx d fns]), none,
         s.log ++ batch_log sql (batch ++ [document_to_sql_values ctx d fns])⟩
        rfl (by simpa using hbs) (by simp) (fun x hx => hdo x (by simp [hx]))
      rw [insert_batch_ok ok sql _ s htxn (by simp) hall]
      dsimp only
      rw [hrec]
      simp [List.append_assoc, Nat.add_assoc]
      omega
    · simp only [if_neg h]
      have hb1 : (batch ++ [document_to_sql_values ctx d fns]).length < bs := by
        omega
      exact ih _ tm s htxn hb1
        (fun r hr => by
          rcases List.mem_append.mp hr with h1 | h1
          · exact hba r h1
          · rw [List.mem_singleton.mp h1]
            exact hdo d (by simp))
        (fun x hx => hdo x (by simp [hx]))

/-- Helper: once the accumulated batch contains a failing row after its
all-accepted prefix, the run fails at the flush of that batch when enough
rows remain to fill it, and otherwise ends with the failing row still
accumulated. -/
theorem migrate_loop_tail_bad (ok : Row → Bool) (bs : Nat) (sql : String)
    (fns : List String) (ctx : SerCtx) (good : List Row) (bad : Row)
    (hgood : ∀ r ∈ good, ok r = true) (hbad : ok bad = false) (ds : List Doc) :
    ∀ (tailB : List Row) (tm : Nat) (s : SqlState), s.txn = none →
    (good ++ bad :: tailB).length < bs →
    ((bs ≤ (good ++ bad :: tailB).length + ds.length →
      Migrator.migrate_loop ok bs sql fns ctx ds (good ++ bad :: tailB) tm s =
        Except.error ⟨s.committed, none,
          s.log ++ TxEvent.begin :: (good.map (TxEvent.exec sql) ++ [TxEvent.rollback])⟩) ∧
     ((good ++ bad :: tailB).length + ds.length < bs →
      Migrator.migrate_loop ok bs sql fns ctx ds (good ++ bad :: tailB) tm s =
        Except.ok (s, (good ++ bad :: tailB) ++
          ds.map (fun d => document_to_sql_values ctx d fns), tm))) := by
  induction ds with
  | nil =>
    intro tailB tm s htxn hlt
    constructor
    · intro hc
      simp only [List.length_nil, Nat.add_zero] at hc
      exact absurd hc (by omega)
    · intro _
      simp [Migrator.migrate_loop]
  | cons d ds2 ih =>
    intro tailB tm s htxn hlt
    have hsplit : (good ++ bad :: tailB) ++ [document_to_sql_values ctx d fns] =
        good ++ bad :: (tailB ++ [document_to_sql_values ctx d fns]) := by
      simp
    have hL1 : ((good ++ bad :: tailB) ++ [document_to_sql_values ctx d fns]).length
        = (good ++ bad :: tailB).length + 1 := by
      simp
      omega
    constructor
    · intro hc
      simp only [List.length_cons] at hc
      simp only [Migrator.migrate_loop]
      by_cases h : bs ≤ ((good ++ bad :: tailB) ++ [document_to_sql_values ctx d fns]).length
      · simp only [if_pos h]
        rw [hsplit, insert_batch_err ok sql good bad _ s htxn hgood hbad]
      · rw [hL1] at h
        simp only [if_neg (hL1 ▸ h)]
        rw [hsplit]
        refine (ih _ tm s htxn ?_).1 ?_
        · rw [← hsplit, hL1]
          omega
        · rw [← hsplit, hL1]
          omega
    · intro hc
      simp only [List.length_cons] at hc
      simp only [Migrator.migrate_loop]
      have h : ¬ bs ≤ ((good ++ bad :: tailB) ++ [document_to_sql_values ctx d fns]).length := by
        rw [hL1]
        omega
      simp only [if_neg h]
      rw [hL1] at h
      rw [hsplit]
      rw [(ih _ tm s htxn (by rw [← hsplit, hL1]; omega)).2
        (by rw [← hsplit, hL1]; omega)]
      simp

/-- Helper: full success characterization of migrate_collection_data: every
converted row is committed through the chunked transactions (the full
chunks, then the trailing partial batch if any), the migrated count is the
stream length, and the mismatch flag compares it with the fetched count. -/
theorem migrate_collection_data_ok (ok : Row → Bool) (bs total_count : Nat)
    (ctx : SerCtx) (cname : String) (sample stream : List Doc) (s : SqlState)
    (fns : List String) (sql : String) (rows : List Row)
    (hfns : fns = (SchemaInferrer.infer_schema cname sample).field_names)
    (hsql : sql = (SchemaInferrer.infer_schema cname sample).to_insert_sql)
    (hrows : rows = stream.map (fun d => document_to_sql_values ctx d fns))
    (hbs : 0 < bs) (htc : total_count ≠ 0) (htxn : s.txn = none)
    (hok : ∀ r ∈ rows, ok r = true) :
    Migrator.migrate_collection_data ok bs ctx cname sample total_count stream s =
      Except.ok
        { state := ⟨s.committed ++ rows, none,
            s.log ++ ((((chunk_flushes bs rows []).1 ++
              (if (chunk_flushes bs rows []).2.isEmpty then []
               else [(chunk_flushes bs rows []).2])).map (batch_log sql)).flatten)⟩,
          migrated := stream.length,
          count_mismatch_warned := decide (stream.length ≠ total_count) } := by
  subst hsql
  subst hrows
  subst hfns
  have hdocok : ∀ d ∈ stream, ok (document_to_sql_values ctx d
      (SchemaInferrer.infer_schema cname sample).field_names) = true :=
    fun d hd => hok _ (List.mem_map_of_mem _ hd)
  have hjoin := chunk_flushes_join bs
    (stream.map (fun d => document_to_sql_values ctx d
      (SchemaInferrer.infer_schema cname sample).field_names)) []
  simp only [List.nil_append] at hjoin
  simp only [Migrator.migrate_collection_data, if_neg htc]
  rw [migrate_loop_ok ok bs _ _ ctx hbs stream [] 0 s htxn (by simpa using hbs)
    (by simp) hdocok]
  dsimp only
  by_cases hemp : (chunk_flushes bs (stream.map (fun d => document_to_sql_values ctx d
      (SchemaInferrer.infer_schema cname sample).field_names)) []).2.isEmpty
  · have h2 : (chunk_flushes bs (stream.map (fun d => document_to_sql_values ctx d
        (SchemaInferrer.infer_schema cname sample).field_names)) []).2 = [] :=
      List.isEmpty_iff.mp hemp
    rw [if_pos hemp]
    rw [h2, List.append_nil] at hjoin
    have hchunks : (chunk_flushes bs (stream.map (fun d => document_to_sql_values ctx d
          (SchemaInferrer.infer_schema cname sample).field_names)) []).1 ++
        (if (chunk_flushes bs (stream.map (fun d => document_to_sql_values ctx d
          (SchemaInferrer.infer_schema cname sample).field_names)) []).2.isEmpty then []
         else [(chunk_flushes bs (stream.map (fun d => document_to_sql_values ctx d
          (SchemaInferrer.infer_schema cname sample).field_names)) []).2]) =
        (chunk_flushes bs (stream.map (fun d => document_to_sql_values ctx d
          (SchemaInferrer.infer_schema cname sample).field_names)) []).1 := by
      rw [hemp]
      simp
    rw [hchunks, hjoin]
    simp
  · rw [if_neg hemp]
    have hne2 : (chunk_flushes bs (stream.map (fun d => document_to_sql_values ctx d
        (SchemaInferrer.infer_schema cname sample).field_names)) []).2 ≠ [] := by
      intro h
      rw [h] at hemp
      exact hemp rfl
    have hok2 : ∀ r ∈ (chunk_flushes bs (stream.map (fun d => document_to_sql_values ctx d
        (SchemaInferrer.infer_schema cname sample).field_names)) []).2, ok r = true := by
      intro r hr
      refine hok r ?_
      rw [← hjoin]
      exact List.mem_append.mpr (Or.inr hr)
    rw [insert_batch_ok ok _ _ _ rfl hne2 hok2]
    have hlen : (0 + (chunk_flushes bs (stream.map (fun d => document_to_sql_values ctx d
          (SchemaInferrer.infer_schema cname sample).field_names)) []).1.flatten.length) +
        (chunk_flushes bs (stream.map (fun d => document_to_sql_values ctx d
          (SchemaInferrer.infer_schema cname sample).field_names)) []).2.length =
        stream.length := by
      have := congrArg List.length hjoin
      simp only [List.length_append, List.length_map] at this
      omega
    have hif : (if (chunk_flushes bs (stream.map (fun d => document_to_sql_values ctx d
          (SchemaInferrer.infer_schema cname sample).field_names)) []).2.isEmpty
        then ([] : List (List Row))
        else [(chunk_flushes bs (stream.map (fun d => document_to_sql_values ctx d
          (SchemaInferrer.infer_schema cname sample).field_names)) []).2]) =
        [(chunk_flushes bs (stream.map (fun d => document_to_sql_values ctx d
          (SchemaInferrer.infer_schema cname sample).field_names)) []).2] := by
      rw [if_neg hemp]
    have hcom : (s.committed ++ (chunk_flushes bs (stream.map (fun d =>
          document_to_sql_values ctx d
          (SchemaInferrer.infer_schema cname sample).field_names)) []).1.flatten) ++
        (chunk_flushes bs (stream.map (fun d => document_to_sql_values ctx d
          (SchemaInferrer.infer_schema cname sample).field_names)) []).2 =
        s.committed ++ stream.map (fun d => document_to_sql_values ctx d
          (SchemaInferrer.infer_schema cname sample).field_names) := by
      rw [List.append_assoc, hjoin]
    rw [hif, ← hlen, hcom]
    simp [List.append_assoc]

/-- Helper: full failure characterization of migrate_collection_data: when
the stream splits into an all-accepted prefix, one rejected document and an
arbitrary tail, the run returns the propagated error; the batch containing
the rejected row is rolled back entirely (only the full chunks of the
prefix are committed) and the log ends with BEGIN, the executions of the
accepted rows of that batch, and ROLLBACK. -/
theorem migrate_collection_data_err (ok : Row → Bool) (bs total_count : Nat)
    (ctx : SerCtx) (cname : String) (sample : List Doc) (s : SqlState)
    (fns : List String) (sql : String)
    (hfns : fns = (SchemaInferrer.infer_schema cname sample).field_names)
    (hsql : sql = (SchemaInferrer.infer_schema cname sample).to_insert_sql)
    (gdocs : List Doc) (bd : Doc) (rdocs : List Doc)
    (hbs : 0 < bs) (htc : total_count ≠ 0) (htxn : s.txn = none)
    (hgood : ∀ d ∈ gdocs, ok (document_to_sql_values ctx d fns) = true)
    (hbad : ok (document_to_sql_values ctx bd fns) = false) :
    Migrator.migrate_collection_data ok bs ctx cname sample total_count
        (gdocs ++ bd :: rdocs) s =
      Except.error
        ⟨s.committed ++ (chunk_flushes bs (gdocs.map
            (fun d => document_to_sql_values ctx d fns)) []).1.flatten,
         none,
         (s.log ++ ((chunk_flushes bs (gdocs.map
            (fun d => document_to_sql_values ctx d fns)) []).1.map (batch_log sql)).flatten) ++
           TxEvent.begin :: (((chunk_flushes bs (gdocs.map
            (fun d => document_to_sql_values ctx d fns)) []).2).map (TxEvent.exec sql) ++
            [TxEvent.rollback])⟩ := by
  have hjoin := chunk_flushes_join bs
    (gdocs.map (fun d => document_to_sql_values ctx d fns)) []
  simp only [List.nil_append] at hjoin
  have hshape := chunk_flushes_shape bs hbs
    (gdocs.map (fun d => document_to_sql_values ctx d fns)) [] (by simpa using hbs)
  have hp2ok : ∀ r ∈ (chunk_flushes bs (gdocs.map
      (fun d => document_to_sql_values ctx d fns)) []).2, ok r = true := by
    intro r hr
    have hrg : r ∈ gdocs.map (fun d => document_to_sql_values ctx d fns) := by
      rw [← hjoin]
      exact List.mem_append.mpr (Or.inr hr)
    obtain ⟨d, hd, rfl⟩ := List.mem_map.mp hrg
    exact hgood d hd
  simp only [Migrator.migrate_collection_data, if_neg htc]
  rw [← hfns, ← hsql]
  rw [migrate_loop_append ok bs sql fns ctx gdocs (bd :: rdocs) [] 0 s]
  rw [migrate_loop_ok ok bs sql fns ctx hbs gdocs [] 0 s htxn (by simpa using hbs)
    (by simp) hgood]
  dsimp only
  simp only [Migrator.migrate_loop]
  by_cases h : bs ≤ ((chunk_flushes bs (gdocs.map
      (fun d => document_to_sql_values ctx d fns)) []).2 ++
      [document_to_sql_values ctx bd fns]).length
  · simp only [if_pos h]
    have hib := insert_batch_err ok sql
      (chunk_flushes bs (gdocs.map (fun d => document_to_sql_values ctx d fns)) []).2
      (document_to_sql_values ctx bd fns) []
      ⟨s.committed ++ (chunk_flushes bs (gdocs.map
          (fun d => document_to_sql_values ctx d fns)) []).1.flatten, none,
        s.log ++ ((chunk_flushes bs (gdocs.map
          (fun d => document_to_sql_values ctx d fns)) []).1.map (batch_log sql)).flatten⟩
      rfl hp2ok hbad
    rw [hib]
  · simp only [if_neg h]
    have hlt : ((chunk_flushes bs (gdocs.map
        (fun d => document_to_sql_values ctx d fns)) []).2 ++
        [document_to_sql_values ctx bd fns]).length < bs := Nat.lt_of_not_le h
    have htail := migrate_loop_tail_bad ok bs sql fns ctx
      (chunk_flushes bs (gdocs.map (fun d => document_to_sql_values ctx d fns)) []).2
      (document_to_sql_values ctx bd fns) hp2ok hbad rdocs []
      (0 + (chunk_flushes bs (gdocs.map
        (fun d => document_to_sql_values ctx d fns)) []).1.flatten.length)
      ⟨s.committed ++ (chunk_flushes bs (gdocs.map
          (fun d => document_to_sql_values ctx d fns)) []).1.flatten, none,
        s.log ++ ((chunk_flushes bs (gdocs.map
          (fun d => document_to_sql_values ctx d fns)) []).1.map (batch_log sql)).flatten⟩
      rfl hlt
    by_cases hc : bs ≤ ((chunk_flushes bs (gdocs.map
        (fun d => document_to_sql_values ctx d fns)) []).2 ++
        [document_to_sql_values ctx bd fns]).length + rdocs.length
    · rw [htail.1 hc]
    · rw [htail.2 (Nat.lt_of_not_le hc)]
      dsimp only
      rw [if_neg (by simp)]
      have hL : ((chunk_flushes bs (gdocs.map
          (fun d => document_to_sql_values ctx d fns)) []).2 ++
          [document_to_sql_values ctx bd fns]) ++
          rdocs.map (fun d => document_to_sql_values ctx d fns) =
          (chunk_flushes bs (gdocs.map
            (fun d => document_to_sql_values ctx d fns)) []).2 ++
          document_to_sql_values ctx bd fns ::
            rdocs.map (fun d => document_to_sql_values ctx d fns) := by
        simp
      rw [hL]
      have hib := insert_batch_err ok sql
        (chunk_flushes bs (gdocs.map (fun d => document_to_sql_values ctx d fns)) []).2
        (document_to_sql_values ctx bd fns)
        (rdocs.map (fun d => document_to_sql_values ctx d fns))
        ⟨s.committed ++ (chunk_flushes bs (gdocs.map
            (fun d => document_to_sql_values ctx d fns)) []).1.flatten, none,
          s.log ++ ((chunk_flushes bs (gdocs.map
            (fun d => document_to_sql_values ctx d fns)) []).1.map (batch_log sql)).flatten⟩
        rfl hp2ok hbad
      rw [hib]

/-- C3: batching and transaction discipline of the data phase. The stream
rows are flushed as full chunks of exactly the configured batch size plus
one trailing partial chunk of rows.length mod batch_size rows (so 2500
rows at batch size 1000 give chunks of 1000, 1000, 500); on an all-accepted
run, each chunk is one transaction in the log: BEGIN, one execution of the
insert template per row, COMMIT; if one row of the stream is rejected, the
whole batch holding it is rolled back (only the full chunks before it are
committed), the log ends with BEGIN, the accepted executions of that batch
and ROLLBACK, and the error propagates while earlier committed batches
remain visible. -/
theorem migrate_batch_transaction_semantics
    (ok : Row → Bool) (bs total_count : Nat) (ctx : SerCtx) (cname : String)
    (sample stream : List Doc) (s : SqlState)
    (fns : List String) (sql : String) (rows : List Row)
    (hfns : fns = (SchemaInferrer.infer_schema cname sample).field_names)
    (hsql : sql = (SchemaInferrer.infer_schema cname sample).to_insert_sql)
    (hrows : rows = stream.map (fun d => document_to_sql_values ctx d fns))
    (hbs : 0 < bs) (htc : total_count ≠ 0) (htxn : s.txn = none) :
    ((chunk_flushes bs rows []).1.flatten ++ (chunk_flushes bs rows []).2 = rows ∧
     (∀ c ∈ (chunk_flushes bs rows []).1, c.length = bs) ∧
     (chunk_flushes bs rows []).1.length = rows.length / bs ∧
     (chunk_flushes bs rows []).2.length = rows.length % bs) ∧
    ((∀ r ∈ rows, ok r = true) →
      Migrator.migrate_collection_data ok bs ctx cname sample total_count stream s =
        Except.ok
          { state := ⟨s.committed ++ rows, none,
              s.log ++ ((((chunk_flushes bs rows []).1 ++
                (if (chunk_flushes bs rows []).2.isEmpty then []
                 else [(chunk_flushes bs rows []).2])).map (batch_log sql)).flatten)⟩,
            migrated := stream.length,
            count_mismatch_warned := decide (stream.length ≠ total_count) }) ∧
    (∀ gdocs bd rdocs, stream = gdocs ++ bd :: rdocs →
      (∀ d ∈ gdocs, ok (document_to_sql_values ctx d fns) = true) →
      ok (document_to_sql_values ctx bd fns) = false →
      Migrator.migrate_collection_data ok bs ctx cname sample total_count stream s =
        Except.error
          ⟨s.committed ++ (chunk_flushes bs (gdocs.map
              (fun d => document_to_sql_values ctx d fns)) []).1.flatten,
           none,
           (s.log ++ ((chunk_flushes bs (gdocs.map
              (fun d => document_to_sql_values ctx d fns)) []).1.map (batch_log sql)).flatten) ++
             TxEvent.begin :: (((chunk_flushes bs (gdocs.map
              (fun d => document_to_sql_values ctx d fns)) []).2).map (TxEvent.exec sql) ++
              [TxEvent.rollback])⟩) := by
  refine ⟨?_, ?_, ?_⟩
  · have hjoin := chunk_flushes_join bs rows []
    simp only [List.nil_append] at hjoin
    have hshape := chunk_flushes_shape bs hbs rows [] (by simpa using hbs)
    have hflat := flatten_length_uniform bs _ hshape.1
    have hsum : (chunk_flushes bs rows []).1.flatten.length +
        (chunk_flushes bs rows []).2.length = rows.length := by
      have hc := congrArg List.length hjoin
      simpa only [List.length_append] using hc
    have htotal : rows.length = bs * (chunk_flushes bs rows []).1.length +
        (chunk_flushes bs rows []).2.length := by
      rw [← hsum, hflat]
    obtain ⟨hq, hr⟩ := div_mod_of_eq bs _ _ _ hbs hshape.2 htotal
    exact ⟨hjoin, hshape.1, hq, hr⟩
  · intro hok
    exact migrate_collection_data_ok ok bs total_count ctx cname sample stream s
      fns sql rows hfns hsql hrows hbs htc htxn hok
  · intro gdocs bd rdocs hsplit hg hb
    subst hsplit
    exact migrate_collection_data_err ok bs total_count ctx cname sample s
      fns sql hfns hsql gdocs bd rdocs hbs htc htxn hg hb

/-- A small concrete setup for the migration witnesses: five one-field
documents, batch size two. -/
def wdoc (i : Nat) : Doc := [("_id", Bson.int64 (Int.ofNat i))]

/-- Concrete five-document stream. -/
def wstream : List Doc := [wdoc 0, wdoc 1, wdoc 2, wdoc 3, wdoc 4]

/-- Concrete sample used for schema inference in the witnesses. -/
def wsample : List Doc := [wdoc 0]

/-- Trivial serialization context for the witnesses. -/
def wctx : SerCtx :=
  ⟨fun _ => none, fun _ => none, fun _ => none, fun _ _ => "", fun _ _ => "", fun _ => ""⟩

/-- Field names inferred from the witness sample. -/
def wfns : List String := (SchemaInferrer.infer_schema "c" wsample).field_names

/-- Insert template inferred from the witness sample. -/
def wsql : String := (SchemaInferrer.infer_schema "c" wsample).to_insert_sql

/-- Converted rows of the witness stream. -/
def wrows : List Row := wstream.map (fun d => document_to_sql_values wctx d wfns)

/-- Witness for C3: the all-accepted run at batch size two over five
documents commits them in chunks through logged transactions. -/
theorem migrate_batch_transaction_semantics_witness :
    Migrator.migrate_collection_data (fun _ => true) 2 wctx "c" wsample 5 wstream
        ⟨[], none, []⟩ =
      Except.ok
        { state := ⟨(⟨[], none, []⟩ : SqlState).committed ++ wrows, none,
            (⟨[], none, []⟩ : SqlState).log ++ ((((chunk_flushes 2 wrows []).1 ++
              (if (chunk_flushes 2 wrows []).2.isEmpty then []
               else [(chunk_flushes 2 wrows []).2])).map (batch_log wsql)).flatten)⟩,
          migrated := wstream.length,
          count_mismatch_warned := decide (wstream.length ≠ 5) } :=
  (migrate_batch_transaction_semantics (fun _ => true) 2 5 wctx "c" wsample wstream
    ⟨[], none, []⟩ wfns wsql wrows rfl rfl rfl (by decide) (by decide) rfl).2.1
    (fun _ _ => rfl)

/-- C9: a mismatch between the fetched count and the number of documents
actually migrated is only warned about: the run still returns success with
the actual migrated count. -/
theorem migrate_count_mismatch_warns
    (ok : Row → Bool) (bs total_count : Nat) (ctx : SerCtx) (cname : String)
    (sample stream : List Doc) (s : SqlState)
    (fns : List String) (rows : List Row)
    (hfns : fns = (SchemaInferrer.infer_schema cname sample).field_names)
    (hrows : rows = stream.map (fun d => document_to_sql_values ctx d fns))
    (hbs : 0 < bs) (htc : total_count ≠ 0) (htxn : s.txn = none)
    (hok : ∀ r ∈ rows, ok r = true) (hmm : stream.length ≠ total_count) :
    ∃ st : SqlState,
      Migrator.migrate_collection_data ok bs ctx cname sample total_count stream s =
        Except.ok { state := st, migrated := stream.length,
                    count_mismatch_warned := true } := by
  have h := migrate_collection_data_ok ok bs total_count ctx cname sample stream s
    fns (SchemaInferrer.infer_schema cname sample).to_insert_sql rows hfns rfl hrows
    hbs htc htxn hok
  rw [decide_eq_true hmm] at h
  exact ⟨_, h⟩

/-- Witness for C9: five documents against a fetched count of seven still
succeed, with the warning flag set and the actual count reported. -/
theorem migrate_count_mismatch_warns_witness :
    ∃ st : SqlState,
      Migrator.migrate_collection_data (fun _ => true) 2 wctx "c" wsample 7 wstream
          ⟨[], none, []⟩ =
        Except.ok { state := st, migrated := wstream.length,
                    count_mismatch_warned := true } :=
  migrate_count_mismatch_warns (fun _ => true) 2 7 wctx "c" wsample wstream
    ⟨[], none, []⟩ wfns wrows rfl rfl (by decide) (by decide) rfl
    (fun _ _ => rfl) (by decide)

end MongoToSqlite
